import Mathlib

/-!
Verification of the pi-agent clip-lifecycle and reliable-upload subsystem
(`sleep_mode.py`, `audio_capture.py`).

The storage directory is modelled as a `Store`: the list of `*.wav` clip
stems in directory-enumeration order together with the sets (lists of
distinct names) of `.recording` and `.uploaded` sidecar markers.  The
remote collector's behavior for one HTTP POST is an oracle value supplied
to each operation, so every network outcome the code can observe is an
explicit input.  Python floats are modelled as real numbers.
-/

namespace SleepSys

/-- The storage directory: `wavs` lists the stems of the `*.wav` files in the
order the filesystem enumerates them (`Path.glob` yields directory order,
which is arbitrary); `recording` and `uploaded` list the stems that have a
`.recording` resp. `.uploaded` sidecar marker.  Filenames in a directory are
distinct, which theorems assume as `Nodup` hypotheses where needed. -/
structure Store where
  wavs : List String
  recording : List String
  uploaded : List String
deriving DecidableEq

/-- `wav_file.with_suffix('.uploaded').touch()` (sleep_mode.py line 170):
creates the marker if absent; touching an existing marker only updates its
mtime, which is not an observable of this model. -/
def touchUploaded (s : Store) (c : String) : Store :=
  if c ∈ s.uploaded then s else { s with uploaded := s.uploaded ++ [c] }

/-- `wav_file.with_suffix('.uploaded').exists()` — the Uploaded-marker query. -/
def isUploaded (s : Store) (c : String) : Bool :=
  c ∈ s.uploaded

/-- `SleepUploader.get_pending_count` (sleep_mode.py lines 201-211): counts the
wav files having neither an `.uploaded` nor a `.recording` marker.  (A
nonexistent storage directory, for which the source returns 0, is the empty
store.) -/
def get_pending_count (s : Store) : Nat :=
  s.wavs.foldl (fun pending c =>
    if c ∉ s.uploaded then
      if c ∉ s.recording then pending + 1 else pending
    else pending) 0

/-- The loop body of `SleepUploader.cleanup_uploaded` (sleep_mode.py lines
218-222), recursing over the snapshot of `*.uploaded` markers: for each
marker, unlink the wav file if it exists, then unlink the marker. -/
def cleanupGo : List String → Store → Store
  | [], s => s
  | c :: rest, s =>
    let s1 := if c ∈ s.wavs then { s with wavs := s.wavs.erase c } else s
    cleanupGo rest { s1 with uploaded := s1.uploaded.erase c }

/-- `SleepUploader.cleanup_uploaded` (sleep_mode.py lines 213-222).  The
`keep_days` parameter is accepted but never read by the body. -/
def cleanup_uploaded (s : Store) (keep_days : Nat) : Store :=
  cleanupGo s.uploaded s

/-- `SleepModeClient` state: `self.session_id` (an `Optional[str]`). -/
structure ClientState where
  session_id : Option String
deriving DecidableEq

/-- Python truthiness of `self.session_id`: `None` and `''` are falsy. -/
def pyTruthy : Option String → Bool
  | none => false
  | some s => !(s = "")

/-- The `sessionId` form field sent by `upload_audio`:
`self.session_id or ''` (sleep_mode.py line 75). -/
def sentSessionId (cs : ClientState) : String :=
  match cs.session_id with
  | none => ""
  | some s => if s = "" then "" else s

/-- Everything the agent can observe of one upload POST: either some
exception was raised (network error, unreadable file, bad response body) or
a response arrived with the given status code and, when parsed, an optional
`sessionId` field in its JSON body. -/
inductive UploadOutcome where
  | exn
  | resp (status : Nat) (sessionId : Option String)
deriving DecidableEq

/-- `SleepModeClient.upload_audio` (sleep_mode.py lines 66-94): on a 200
response, adopt the response's `sessionId` when `not self.session_id`
(i.e. the current id is falsy) and return `True`; on any other status or on
an exception return `False` with the state unchanged. -/
def upload_audio (cs : ClientState) (out : UploadOutcome) : Bool × ClientState :=
  match out with
  | .exn => (false, cs)
  | .resp status sid =>
    if status = 200 then
      (true, if pyTruthy cs.session_id then cs else { session_id := sid })
    else
      (false, cs)

/-- Whether one upload attempt succeeds; `upload_audio` returns `True`
exactly on a 200 response, independently of the client state. -/
def uploadSucceeds : UploadOutcome → Bool
  | .exn => false
  | .resp status _ => status = 200

/-- Result of one pass of the upload loop body: the store and client state
after the pass, the `clips_uploaded` counter, and the clips for which an
upload was attempted, in processing order. -/
structure CycleResult where
  store : Store
  client : ClientState
  clips_uploaded : Nat
  attempted : List String
deriving DecidableEq

/-- The `for wav_file in wav_files` loop of `SleepUploader._upload_loop`
(sleep_mode.py lines 154-174), over the snapshot of enumerated wavs, with
`is_running` true throughout: skip a clip with a `.recording` or `.uploaded`
marker; otherwise attempt the upload (the computed audio level only feeds
the request body) and, on success, bump the counter and touch the
`.uploaded` marker.  The per-clip oracle `r` supplies the server's
behavior. -/
def runCycleFrom (r : String → UploadOutcome) :
    List String → Store → ClientState → Nat → CycleResult
  | [], s, cs, n => { store := s, client := cs, clips_uploaded := n, attempted := [] }
  | c :: rest, s, cs, n =>
    if c ∈ s.recording then
      runCycleFrom r rest s cs n
    else if c ∈ s.uploaded then
      runCycleFrom r rest s cs n
    else
      let p := upload_audio cs (r c)
      if p.1 then
        let res := runCycleFrom r rest (touchUploaded s c) p.2 (n + 1)
        { res with attempted := c :: res.attempted }
      else
        let res := runCycleFrom r rest s p.2 n
        { res with attempted := c :: res.attempted }

/-- One poll cycle of `SleepUploader._upload_loop` (sleep_mode.py lines
150-176): enumerate `*.wav` (directory order) and run the loop body. -/
def uploadCycle (r : String → UploadOutcome) (s : Store) (cs : ClientState)
    (n : Nat) : CycleResult :=
  runCycleFrom r s.wavs s cs n

/-- `m` consecutive poll cycles with the same per-clip server behavior each
cycle (the `clips_uploaded` counter is dropped between cycles; it does not
influence control flow). -/
def iterateCycle (r : String → UploadOutcome) :
    Nat → Store → ClientState → Store × ClientState
  | 0, s, cs => (s, cs)
  | m + 1, s, cs =>
    let res := uploadCycle r s cs 0
    iterateCycle r m res.store res.client

/-- The operations performed by `SleepUploader.stop`, in order. -/
inductive StopEvent where
  | setRunningFalse
  | endSession
  | joinThread
deriving DecidableEq

/-- The timeout, in seconds, passed to `Thread.join` by `stop`
(sleep_mode.py line 141: `self._thread.join(timeout=5.0)`). -/
def joinTimeoutSeconds : ℚ := 5

/-- The ordered sequence of operations `SleepUploader.stop` performs
(sleep_mode.py lines 136-142): set `is_running = False`, call
`self.client.end_session()`, then — when the upload thread exists — join
it with the bounded timeout. -/
def stopTrace (threadStarted : Bool) : List StopEvent :=
  [.setRunningFalse, .endSession] ++ (if threadStarted then [.joinThread] else [])

/-- The session-end call happens only after the join of the upload thread:
every position of `joinThread` in the trace lies before every position of
`endSession`.  (This is what the spec asserts of `stop`.) -/
def endSessionAfterJoin (tr : List StopEvent) : Prop :=
  ∀ i j, tr.get? i = some .joinThread → tr.get? j = some .endSession → i < j

/-- Outcome of one send inside `AudioTransmitter.retry_buffered`: an
exception somewhere in `open`/`requests.post`, or a response with the given
status code. -/
inductive SendOutcome where
  | exn
  | status (code : Nat)
deriving DecidableEq

/-- The `for filepath in buffered_files[:10]` loop of
`AudioTransmitter.retry_buffered` (audio_capture.py lines 229-243); returns
`(attempted, deleted)`: the files for which a send was started, in order,
and the files unlinked after a 200 response.  A non-200 response keeps the
file and continues; the first exception breaks out of the loop. -/
def retryGo (r : String → SendOutcome) : List String → List String × List String
  | [] => ([], [])
  | f :: rest =>
    match r f with
    | .exn => ([f], [])
    | .status code =>
      let res := retryGo r rest
      (f :: res.1, if code = 200 then f :: res.2 else res.2)

/-- Lexicographic (Python string) order on filenames, expressed on the
character lists so that concrete instances evaluate; this is exactly `≤` on
`String` (`String.le_iff_toList_le`). -/
def nameLe (a b : String) : Prop :=
  a.data ≤ b.data

instance : DecidableRel nameLe := fun a b => by
  unfold nameLe; infer_instance

/-- `AudioTransmitter.retry_buffered` (audio_capture.py lines 225-243):
`sorted(BUFFER_DIR.glob('*.wav'))[:10]`, then the send loop.  `buffer` is
the buffer directory's wav files in enumeration order; Python's stable
`sorted` on distinct names is any stable sort, modelled by insertion
sort. -/
def retry_buffered (buffer : List String) (r : String → SendOutcome) :
    List String × List String :=
  retryGo r ((buffer.insertionSort nameLe).take 10)

/-- `sum(s ** 2 for s in sample)` over the unpacked 16-bit samples. -/
def sumSquares (l : List Int) : Int :=
  (l.map (fun s => s * s)).sum

/-- The `rms` local of both level meters: `(sum_squares / len(sample)) ** 0.5`,
with Python float arithmetic modelled as real arithmetic. -/
noncomputable def rmsOf (l : List Int) : ℝ :=
  Real.sqrt ((sumSquares l : ℝ) / (l.length : ℝ))

/-- Python's `round(x, 2)`.  (Python rounds exact ties to even; `round` here
rounds ties up.  The two differ only on exact multiples of 1/200, and no
property proved below depends on the tie direction.) -/
noncomputable def round2 (x : ℝ) : ℝ :=
  (round (100 * x) : ℤ) / 100

/-- `AudioCapture.calculate_audio_level` (audio_capture.py lines 153-167),
on the decoded 16-bit samples: `min(100, (rms / 32768) * 100 * 5)`, then
`round(level, 2)`.  On empty input `sum_squares / count` raises
`ZeroDivisionError`, which nothing in that function catches: the result is
`none`, not a value. -/
noncomputable def calculate_audio_level (l : List Int) : Option ℝ :=
  if l = [] then none
  else some (round2 (min 100 (rmsOf l / 32768 * 100 * 5)))

/-- `shorts[::100]`: every 100th element (indices 0, 100, 200, ...). -/
def strideEvery (k : Nat) : List Int → List Int
  | [] => []
  | a :: rest => a :: strideEvery k (rest.drop (k - 1))
termination_by l => l.length
decreasing_by simp [List.length_drop]; omega

/-- `sample = shorts[::100] if len(shorts) > 1000 else shorts`
(sleep_mode.py line 192). -/
def strideSample (l : List Int) : List Int :=
  if l.length > 1000 then strideEvery 100 l else l

/-- What `wave.open` + `readframes` yields when the file is readable: the
declared sample width and, for width 2, the unpacked 16-bit samples. -/
structure WavData where
  sampwidth : Nat
  samples : List Int

/-- `SleepUploader._calculate_audio_level` (sleep_mode.py lines 182-199):
input `none` models a file `wave.open`/`readframes` cannot read (the raised
error is caught and 0.0 returned).  For a readable file of sample width 2
the subsampled RMS level is computed — an empty sample list raises
`ZeroDivisionError`, again caught, returning 0.0 — and for any other sample
width the function falls through to `return 0.0`. -/
noncomputable def sleep_calculate_audio_level (w : Option WavData) : ℝ :=
  match w with
  | none => 0
  | some w =>
    if w.sampwidth = 2 then
      let sample := strideSample w.samples
      if sample = [] then 0
      else min 100 (rmsOf sample / 32768 * 100 * 5)
    else 0

/-- Storage directory with file modification times: wav entries are
`(stem, mtime in seconds)`.  Only used to state the retention-policy claim
about `cleanup_uploaded`, whose body never reads any mtime. -/
structure TStore where
  wavs : List (String × Nat)
  recording : List String
  uploaded : List String
deriving DecidableEq

/-- The loop of `SleepUploader.cleanup_uploaded` on the timed store: for
each `.uploaded` marker, unlink the wav file of that stem if present, then
unlink the marker.  No mtime is consulted. -/
def cleanupGoT : List String → TStore → TStore
  | [], s => s
  | c :: rest, s =>
    let s1 := if c ∈ s.wavs.map Prod.fst then
        { s with wavs := s.wavs.filter (fun p => p.1 ≠ c) } else s
    cleanupGoT rest { s1 with uploaded := s1.uploaded.erase c }

/-- `SleepUploader.cleanup_uploaded` over the timed store; `keep_days` is
accepted and ignored, exactly as in the source. -/
def cleanup_uploadedT (s : TStore) (keep_days : Nat) : TStore :=
  cleanupGoT s.uploaded s

/-- Modelled from the spec: the retention policy named by the claim —
`keep_days = 0` means "all"; otherwise "older than `keep_days` days", i.e.
the file's mtime is at least `keep_days` days (86400 s each) before `now`.
This is the spec-side yardstick the code is compared against; the code
itself never evaluates any such predicate. -/
def retention_spec (keep_days now mtime : Nat) : Bool :=
  keep_days = 0 || mtime + keep_days * 86400 ≤ now

/-! Helper lemmas about the store operations. -/

@[simp]
theorem touchUploaded_wavs (s : Store) (c : String) :
    (touchUploaded s c).wavs = s.wavs := by
  unfold touchUploaded; split <;> rfl

@[simp]
theorem touchUploaded_recording (s : Store) (c : String) :
    (touchUploaded s c).recording = s.recording := by
  unfold touchUploaded; split <;> rfl

theorem mem_touchUploaded_uploaded (s : Store) (c d : String) :
    d ∈ (touchUploaded s c).uploaded ↔ d ∈ s.uploaded ∨ d = c := by
  unfold touchUploaded
  split_ifs with h
  · constructor
    · exact Or.inl
    · rintro (hd | rfl)
      · exact hd
      · exact h
  · simp [List.mem_append]

theorem upload_audio_fst (cs : ClientState) (o : UploadOutcome) :
    (upload_audio cs o).1 = uploadSucceeds o := by
  cases o with
  | exn => rfl
  | resp status sid =>
    by_cases h : status = 200 <;> simp [upload_audio, uploadSucceeds, h]

/-! Invariants of one pass of the upload loop body. -/

theorem runCycleFrom_store_wavs (r : String → UploadOutcome) :
    ∀ (L : List String) (s : Store) (cs : ClientState) (n : Nat),
      (runCycleFrom r L s cs n).store.wavs = s.wavs := by
  intro L
  induction L with
  | nil => intro s cs n; rfl
  | cons c rest ih =>
    intro s cs n
    by_cases hrec : c ∈ s.recording
    · simp [runCycleFrom, hrec, ih]
    · by_cases hupl : c ∈ s.uploaded
      · simp [runCycleFrom, hrec, hupl, ih]
      · by_cases hok : (upload_audio cs (r c)).1
        · simp [runCycleFrom, hrec, hupl, hok, ih]
        · simp [runCycleFrom, hrec, hupl, hok, ih]

theorem runCycleFrom_store_recording (r : String → UploadOutcome) :
    ∀ (L : List String) (s : Store) (cs : ClientState) (n : Nat),
      (runCycleFrom r L s cs n).store.recording = s.recording := by
  intro L
  induction L with
  | nil => intro s cs n; rfl
  | cons c rest ih =>
    intro s cs n
    by_cases hrec : c ∈ s.recording
    · simp [runCycleFrom, hrec, ih]
    · by_cases hupl : c ∈ s.uploaded
      · simp [runCycleFrom, hrec, hupl, ih]
      · by_cases hok : (upload_audio cs (r c)).1
        · simp [runCycleFrom, hrec, hupl, hok, ih]
        · simp [runCycleFrom, hrec, hupl, hok, ih]

/-- Which clips carry an `.uploaded` marker after one pass: exactly those
that carried one before, plus those pending clips of the enumeration whose
upload attempt succeeded. -/
theorem runCycleFrom_uploaded_mem (r : String → UploadOutcome) :
    ∀ (L : List String) (s : Store) (cs : ClientState) (n : Nat) (c : String),
      L.Nodup →
      (c ∈ (runCycleFrom r L s cs n).store.uploaded ↔
        c ∈ s.uploaded ∨
          (c ∈ L ∧ c ∉ s.recording ∧ c ∉ s.uploaded ∧ uploadSucceeds (r c) = true)) := by
  intro L
  induction L with
  | nil => intro s cs n c _; simp [runCycleFrom]
  | cons c0 rest ih =>
    intro s cs n c hnd
    obtain ⟨hc0, hndrest⟩ := List.nodup_cons.mp hnd
    by_cases hrec : c0 ∈ s.recording
    · rw [runCycleFrom]
      simp only [if_pos hrec]
      rw [ih s cs n c hndrest]
      constructor
      · rintro (h | ⟨h1, h2, h3, h4⟩)
        · exact Or.inl h
        · exact Or.inr ⟨List.mem_cons_of_mem _ h1, h2, h3, h4⟩
      · rintro (h | ⟨h1, h2, h3, h4⟩)
        · exact Or.inl h
        · rcases List.mem_cons.mp h1 with h1 | h1
          · exact absurd (h1 ▸ hrec) h2
          · exact Or.inr ⟨h1, h2, h3, h4⟩
    · by_cases hupl : c0 ∈ s.uploaded
      · rw [runCycleFrom]
        simp only [if_neg hrec, if_pos hupl]
        rw [ih s cs n c hndrest]
        constructor
        · rintro (h | ⟨h1, h2, h3, h4⟩)
          · exact Or.inl h
          · exact Or.inr ⟨List.mem_cons_of_mem _ h1, h2, h3, h4⟩
        · rintro (h | ⟨h1, h2, h3, h4⟩)
          · exact Or.inl h
          · rcases List.mem_cons.mp h1 with h1 | h1
            · exact absurd (h1 ▸ hupl) h3
            · exact Or.inr ⟨h1, h2, h3, h4⟩
      · by_cases hok : (upload_audio cs (r c0)).1
        · rw [runCycleFrom]
          simp only [if_neg hrec, if_neg hupl, hok, if_pos]
          have hsucc : uploadSucceeds (r c0) = true := by
            rw [← upload_audio_fst cs (r c0)]; exact hok
          rw [ih (touchUploaded s c0) _ _ c hndrest, mem_touchUploaded_uploaded,
            touchUploaded_recording]
          constructor
          · rintro ((h | rfl) | ⟨h1, h2, h3, h4⟩)
            · exact Or.inl h
            · exact Or.inr ⟨List.mem_cons_self _ _, hrec, hupl, hsucc⟩
            · push_neg at h3
              exact Or.inr ⟨List.mem_cons_of_mem _ h1, h2, h3.1, h4⟩
          · rintro (h | ⟨h1, h2, h3, h4⟩)
            · exact Or.inl (Or.inl h)
            · rcases List.mem_cons.mp h1 with rfl | h1
              · exact Or.inl (Or.inr rfl)
              · refine Or.inr ⟨h1, h2, ?_, h4⟩
                push_neg
                exact ⟨h3, fun hcc0 => hc0 (hcc0 ▸ h1)⟩
        · rw [runCycleFrom]
          simp only [if_neg hrec, if_neg hupl, hok]
          simp only [Bool.false_eq_true, if_false]
          have hsucc : uploadSucceeds (r c0) = false := by
            rw [← upload_audio_fst cs (r c0)]
            exact Bool.eq_false_iff.mpr hok
          rw [ih s _ n c hndrest]
          constructor
          · rintro (h | ⟨h1, h2, h3, h4⟩)
            · exact Or.inl h
            · exact Or.inr ⟨List.mem_cons_of_mem _ h1, h2, h3, h4⟩
          · rintro (h | ⟨h1, h2, h3, h4⟩)
            · exact Or.inl h
            · rcases List.mem_cons.mp h1 with h1 | h1
              · subst h1
                rw [hsucc] at h4
                exact absurd h4 (by simp)
              · exact Or.inr ⟨h1, h2, h3, h4⟩

/-- The clips attempted in one pass are exactly the clips of the
enumeration that were pending (no marker) when the pass started, in
enumeration order. -/
theorem runCycleFrom_attempted (r : String → UploadOutcome) :
    ∀ (L : List String) (s : Store) (cs : ClientState) (n : Nat),
      L.Nodup →
      (runCycleFrom r L s cs n).attempted =
        L.filter (fun c => decide (c ∉ s.recording) && decide (c ∉ s.uploaded)) := by
  intro L
  induction L with
  | nil => intro s cs n _; rfl
  | cons c0 rest ih =>
    intro s cs n hnd
    obtain ⟨hc0, hndrest⟩ := List.nodup_cons.mp hnd
    by_cases hrec : c0 ∈ s.recording
    · rw [runCycleFrom]
      simp only [if_pos hrec]
      rw [ih s cs n hndrest, List.filter_cons]
      simp [hrec]
    · by_cases hupl : c0 ∈ s.uploaded
      · rw [runCycleFrom]
        simp only [if_neg hrec, if_pos hupl]
        rw [ih s cs n hndrest, List.filter_cons]
        simp [hrec, hupl]
      · by_cases hok : (upload_audio cs (r c0)).1
        · rw [runCycleFrom]
          simp only [if_neg hrec, if_neg hupl, hok, if_pos]
          rw [List.filter_cons]
          simp only [hrec, hupl, not_false_eq_true, decide_True, Bool.and_self, if_pos]
          rw [ih (touchUploaded s c0) _ _ hndrest]
          congr 1
          apply List.filter_congr
          intro d hd
          have hdc0 : d ≠ c0 := fun h => hc0 (h ▸ hd)
          simp only [touchUploaded_recording]
          congr 1
          simp only [decide_eq_decide]
          rw [mem_touchUploaded_uploaded]
          simp [hdc0]
        · rw [runCycleFrom]
          simp only [if_neg hrec, if_neg hupl, hok, Bool.false_eq_true, if_false]
          rw [List.filter_cons]
          simp only [hrec, hupl, not_false_eq_true, decide_True, Bool.and_self, if_pos]
          rw [ih s _ n hndrest]

/-- A clip carrying a `.recording` marker is never attempted by the pass,
whatever the enumeration and the oracle. -/
theorem runCycleFrom_recording_skipped (r : String → UploadOutcome) :
    ∀ (L : List String) (s : Store) (cs : ClientState) (n : Nat) (c : String),
      c ∈ s.recording → c ∉ (runCycleFrom r L s cs n).attempted := by
  intro L
  induction L with
  | nil => intro s cs n c _; simp [runCycleFrom]
  | cons c0 rest ih =>
    intro s cs n c hc
    by_cases hrec : c0 ∈ s.recording
    · rw [runCycleFrom]; simp only [if_pos hrec]
      exact ih s cs n c hc
    · by_cases hupl : c0 ∈ s.uploaded
      · rw [runCycleFrom]; simp only [if_neg hrec, if_pos hupl]
        exact ih s cs n c hc
      · by_cases hok : (upload_audio cs (r c0)).1
        · rw [runCycleFrom]
          simp only [if_neg hrec, if_neg hupl, hok, if_pos]
          intro hmem
          rcases List.mem_cons.mp hmem with rfl | hmem
          · exact hrec hc
          · exact ih (touchUploaded s c0) _ _ c (by simpa using hc) hmem
        · rw [runCycleFrom]
          simp only [if_neg hrec, if_neg hupl, hok, Bool.false_eq_true, if_false]
          intro hmem
          rcases List.mem_cons.mp hmem with rfl | hmem
          · exact hrec hc
          · exact ih s _ n c hc hmem

/-- The counting fold of `get_pending_count`, with the accumulator
generalized. -/
theorem get_pending_count_go (s : Store) :
    ∀ (L : List String) (n : Nat),
      L.foldl (fun pending c =>
        if c ∉ s.uploaded then
          if c ∉ s.recording then pending + 1 else pending
        else pending) n
      = n + (L.filter (fun c => decide (c ∉ s.recording) && decide (c ∉ s.uploaded))).length := by
  intro L
  induction L with
  | nil => intro n; simp
  | cons c rest ih =>
    intro n
    rw [List.foldl_cons, List.filter_cons]
    by_cases hu : c ∈ s.uploaded
    · rw [if_neg (fun h => h hu)]
      simp only [hu, not_true_eq_false, decide_False, Bool.and_false,
        Bool.false_eq_true, if_false]
      exact ih n
    · by_cases hr : c ∈ s.recording
      · rw [if_pos hu, if_neg (fun h => h hr)]
        simp only [hr, not_true_eq_false, decide_False, Bool.false_and,
          Bool.false_eq_true, if_false]
        exact ih n
      · rw [if_pos hu, if_pos hr]
        simp only [hu, hr, not_false_eq_true, decide_True, Bool.and_self, if_pos,
          List.length_cons]
        rw [ih (n + 1)]
        omega

/-- `get_pending_count` is the number of wavs carrying neither marker. -/
theorem get_pending_count_eq_filter_length (s : Store) :
    get_pending_count s =
      (s.wavs.filter (fun c => decide (c ∉ s.recording) && decide (c ∉ s.uploaded))).length := by
  unfold get_pending_count
  rw [get_pending_count_go s s.wavs 0, Nat.zero_add]

/-! Invariants of the reclamation pass. -/

theorem cleanupGo_recording :
    ∀ (L : List String) (s : Store), (cleanupGo L s).recording = s.recording := by
  intro L
  induction L with
  | nil => intro s; rfl
  | cons c0 rest ih =>
    intro s
    rw [cleanupGo]
    rw [ih]
    by_cases h : c0 ∈ s.wavs <;> simp [h]

theorem cleanupGo_wavs_mem :
    ∀ (L : List String) (s : Store) (c : String), s.wavs.Nodup →
      (c ∈ (cleanupGo L s).wavs ↔ c ∈ s.wavs ∧ c ∉ L) := by
  intro L
  induction L with
  | nil => intro s c _; simp [cleanupGo]
  | cons c0 rest ih =>
    intro s c hnd
    have hset : (if c0 ∈ s.wavs then { s with wavs := s.wavs.erase c0 } else s).wavs
        = s.wavs.erase c0 := by
      by_cases h : c0 ∈ s.wavs
      · simp [h]
      · simp [h, List.erase_of_not_mem h]
    rw [cleanupGo]
    have hrw : ∀ (t : Store), t.wavs = s.wavs.erase c0 →
        (c ∈ (cleanupGo rest { t with uploaded := t.uploaded.erase c0 }).wavs ↔
          c ∈ s.wavs.erase c0 ∧ c ∉ rest) := by
      intro t ht
      rw [ih { t with uploaded := t.uploaded.erase c0 } c (by simpa [ht] using hnd.erase c0)]
      simp [ht]
    rw [hrw _ hset, hnd.mem_erase_iff]
    constructor
    · rintro ⟨⟨h1, h2⟩, h3⟩
      exact ⟨h2, by simp [h1, h3]⟩
    · rintro ⟨h1, h2⟩
      simp only [List.mem_cons, not_or] at h2
      exact ⟨⟨h2.1, h1⟩, h2.2⟩

theorem cleanupGo_uploaded_nil :
    ∀ (L : List String) (s : Store), s.uploaded = L → L.Nodup →
      (cleanupGo L s).uploaded = [] := by
  intro L
  induction L with
  | nil => intro s h _; rw [cleanupGo]; exact h
  | cons c0 rest ih =>
    intro s h hnd
    rw [cleanupGo]
    apply ih
    · by_cases hw : c0 ∈ s.wavs <;>
        simp [hw, h, List.erase_cons_head]
    · exact (List.nodup_cons.mp hnd).2

theorem cleanup_uploaded_recording (s : Store) (kd : Nat) :
    (cleanup_uploaded s kd).recording = s.recording :=
  cleanupGo_recording s.uploaded s

theorem cleanup_uploaded_wavs_mem (s : Store) (kd : Nat) (c : String)
    (hnd : s.wavs.Nodup) :
    c ∈ (cleanup_uploaded s kd).wavs ↔ c ∈ s.wavs ∧ c ∉ s.uploaded :=
  cleanupGo_wavs_mem s.uploaded s c hnd

theorem cleanup_uploaded_uploaded_nil (s : Store) (kd : Nat)
    (hnd : s.uploaded.Nodup) :
    (cleanup_uploaded s kd).uploaded = [] :=
  cleanupGo_uploaded_nil s.uploaded s rfl hnd

/-! Properties of the buffered-retry pass. -/

instance : IsTotal String nameLe :=
  ⟨fun a b => le_total a.data b.data⟩

instance : IsTrans String nameLe :=
  ⟨fun _ _ _ => le_trans⟩

/-- Shape of one send loop run: the attempted files are an initial segment
of the input list; a file is deleted only if it was attempted and its send
got a 200 response; and only the last attempted file can have raised. -/
theorem retryGo_spec (r : String → SendOutcome) :
    ∀ (L : List String),
      (∃ k, (retryGo r L).1 = L.take k) ∧
      (∀ f ∈ (retryGo r L).2, f ∈ (retryGo r L).1 ∧ r f = .status 200) ∧
      (∀ i g, i + 1 < (retryGo r L).1.length →
        (retryGo r L).1.get? i = some g → r g ≠ .exn) := by
  intro L
  induction L with
  | nil =>
    refine ⟨⟨0, rfl⟩, ?_, ?_⟩
    · intro f hf; simp [retryGo] at hf
    · intro i g h; simp [retryGo] at h
  | cons f rest ih =>
    obtain ⟨⟨k, hk⟩, hdel, hexn⟩ := ih
    cases hrf : r f with
    | exn =>
      refine ⟨⟨1, by simp [retryGo, hrf]⟩, ?_, ?_⟩
      · intro g hg; simp [retryGo, hrf] at hg
      · intro i g h; simp [retryGo, hrf] at h
    | status code =>
      have h1 : (retryGo r (f :: rest)).1 = f :: (retryGo r rest).1 := by
        simp [retryGo, hrf]
      have h2 : (retryGo r (f :: rest)).2 =
          if code = 200 then f :: (retryGo r rest).2 else (retryGo r rest).2 := by
        simp [retryGo, hrf]
      refine ⟨⟨k + 1, by rw [h1, List.take_succ_cons, hk]⟩, ?_, ?_⟩
      · intro g hg
        rw [h2] at hg
        rw [h1]
        by_cases hc : code = 200
        · rw [if_pos hc] at hg
          rcases List.mem_cons.mp hg with rfl | hg
          · exact ⟨List.mem_cons_self _ _, by rw [hrf, hc]⟩
          · obtain ⟨hg1, hg2⟩ := hdel g hg
            exact ⟨List.mem_cons_of_mem _ hg1, hg2⟩
        · rw [if_neg hc] at hg
          obtain ⟨hg1, hg2⟩ := hdel g hg
          exact ⟨List.mem_cons_of_mem _ hg1, hg2⟩
      · intro i g h hg
        rw [h1] at h hg
        cases i with
        | zero =>
          simp only [List.get?_cons_zero, Option.some.injEq] at hg
          subst hg
          rw [hrf]; intro hcontra; exact SendOutcome.noConfusion hcontra
        | succ j =>
          simp only [List.length_cons, Nat.add_lt_add_iff_right] at h
          rw [List.get?_cons_succ] at hg
          exact hexn j g h hg

/-! Properties of the level meters. -/

theorem sumSquares_nonneg (l : List Int) : 0 ≤ sumSquares l := by
  unfold sumSquares
  induction l with
  | nil => simp
  | cons s rest ih =>
    simp only [List.map_cons, List.sum_cons]
    have := mul_self_nonneg s
    omega

theorem rmsOf_nonneg (l : List Int) : 0 ≤ rmsOf l :=
  Real.sqrt_nonneg _

theorem sumSquares_replicate_zero (n : Nat) :
    sumSquares (List.replicate n 0) = 0 := by
  unfold sumSquares
  induction n with
  | zero => rfl
  | succ m ih => simp [List.replicate_succ, ih]

theorem rmsOf_replicate_zero (n : Nat) : rmsOf (List.replicate n 0) = 0 := by
  unfold rmsOf
  rw [sumSquares_replicate_zero]
  simp

theorem round2_mono {x y : ℝ} (h : x ≤ y) : round2 x ≤ round2 y := by
  unfold round2
  have h1 : round (100 * x) ≤ round (100 * y) := by
    rw [round_eq, round_eq]
    exact Int.floor_mono (by linarith)
  have h2 : ((round (100 * x) : ℤ) : ℝ) ≤ ((round (100 * y) : ℤ) : ℝ) := by
    exact_mod_cast h1
  linarith

theorem round2_zero : round2 0 = 0 := by
  unfold round2
  simp

theorem round2_hundred : round2 100 = 100 := by
  unfold round2
  have : (100 : ℝ) * 100 = ((10000 : ℤ) : ℝ) := by norm_num
  rw [this, round_intCast]
  norm_num

theorem round2_nonneg {x : ℝ} (h : 0 ≤ x) : 0 ≤ round2 x := by
  have := round2_mono h
  rwa [round2_zero] at this

theorem round2_le_hundred {x : ℝ} (h : x ≤ 100) : round2 x ≤ 100 := by
  have := round2_mono h
  rwa [round2_hundred] at this

/-- The raw (un-rounded) level expression shared by the two meters. -/
noncomputable def levelOf (l : List Int) : ℝ :=
  min 100 (rmsOf l / 32768 * 100 * 5)

theorem levelOf_nonneg (l : List Int) : 0 ≤ levelOf l := by
  unfold levelOf
  have h := rmsOf_nonneg l
  have : (0 : ℝ) ≤ rmsOf l / 32768 * 100 * 5 := by positivity
  exact le_min (by norm_num) this

theorem levelOf_le_hundred (l : List Int) : levelOf l ≤ 100 :=
  min_le_left _ _

theorem levelOf_mono {l₁ l₂ : List Int} (h : rmsOf l₁ ≤ rmsOf l₂) :
    levelOf l₁ ≤ levelOf l₂ := by
  unfold levelOf
  have : rmsOf l₁ / 32768 * 100 * 5 ≤ rmsOf l₂ / 32768 * 100 * 5 := by linarith
  exact min_le_min le_rfl this

theorem sumSquares_ge_of_full_scale :
    ∀ (l : List Int), (∀ s ∈ l, (32767 : ℤ) ≤ |s|) →
      (32767 : ℤ) ^ 2 * l.length ≤ sumSquares l := by
  intro l
  induction l with
  | nil => intro _; simp [sumSquares]
  | cons s rest ih =>
    intro h
    have hs : (32767 : ℤ) ≤ |s| := h s (List.mem_cons_self _ _)
    have hsq : (32767 : ℤ) ^ 2 ≤ s * s := by
      have h1 : (32767 : ℤ) * 32767 ≤ |s| * |s| :=
        mul_le_mul hs hs (by norm_num) (abs_nonneg s)
      rw [abs_mul_abs_self] at h1
      nlinarith
    have hrest := ih (fun t ht => h t (List.mem_cons_of_mem _ ht))
    unfold sumSquares at hrest ⊢
    simp only [List.map_cons, List.sum_cons, List.length_cons]
    push_cast
    nlinarith

/-- Any nonempty input whose every sample is at full scale (magnitude at
least 32767) drives the raw level to its saturation value 100. -/
theorem levelOf_full_scale (l : List Int) (hne : l ≠ [])
    (h : ∀ s ∈ l, (32767 : ℤ) ≤ |s|) : levelOf l = 100 := by
  have hlen : 0 < (l.length : ℝ) := by
    have : 0 < l.length := List.length_pos.mpr hne
    exact_mod_cast this
  have hsum := sumSquares_ge_of_full_scale l h
  have hmean : (32767 : ℝ) ^ 2 ≤ (sumSquares l : ℝ) / (l.length : ℝ) := by
    rw [le_div_iff₀ hlen]
    exact_mod_cast hsum
  have hrms : (32767 : ℝ) ≤ rmsOf l := by
    have h1 : Real.sqrt ((32767 : ℝ) ^ 2) ≤ rmsOf l := Real.sqrt_le_sqrt hmean
    rwa [Real.sqrt_sq (by norm_num : (0:ℝ) ≤ 32767)] at h1
  have hbig : (100 : ℝ) ≤ rmsOf l / 32768 * 100 * 5 := by
    have : (32767 : ℝ) / 32768 * 100 * 5 ≤ rmsOf l / 32768 * 100 * 5 := by linarith
    linarith [this]
  exact min_eq_left hbig

theorem calculate_audio_level_eq (l : List Int) (hne : l ≠ []) :
    calculate_audio_level l = some (round2 (levelOf l)) := by
  unfold calculate_audio_level levelOf
  rw [if_neg hne]

theorem strideEvery_subset (k : Nat) :
    ∀ (l : List Int), ∀ x ∈ strideEvery k l, x ∈ l
  | [] => by simp [strideEvery]
  | a :: rest => by
    intro x hx
    rw [strideEvery] at hx
    rcases List.mem_cons.mp hx with rfl | hx
    · exact List.mem_cons_self _ _
    · exact List.mem_cons_of_mem _
        (List.mem_of_mem_drop (strideEvery_subset k (rest.drop (k - 1)) x hx))
termination_by l => l.length
decreasing_by simp [List.length_drop]; omega

theorem strideEvery_ne_nil (k : Nat) (a : Int) (rest : List Int) :
    strideEvery k (a :: rest) ≠ [] := by
  rw [strideEvery]
  exact List.cons_ne_nil _ _

theorem strideSample_subset (l : List Int) : ∀ x ∈ strideSample l, x ∈ l := by
  unfold strideSample
  split_ifs
  · exact strideEvery_subset 100 l
  · intro x hx; exact hx

theorem strideSample_ne_nil {l : List Int} (h : l ≠ []) : strideSample l ≠ [] := by
  unfold strideSample
  split_ifs
  · cases l with
    | nil => exact absurd rfl h
    | cons a rest => exact strideEvery_ne_nil 100 a rest
  · exact h

theorem sleep_level_eq (w : WavData) (h2 : w.sampwidth = 2)
    (hne : strideSample w.samples ≠ []) :
    sleep_calculate_audio_level (some w) = levelOf (strideSample w.samples) := by
  show (if w.sampwidth = 2 then
      let sample := strideSample w.samples
      if sample = [] then 0 else min 100 (rmsOf sample / 32768 * 100 * 5)
    else 0) = levelOf (strideSample w.samples)
  rw [if_pos h2]
  show (if strideSample w.samples = [] then 0
    else min 100 (rmsOf (strideSample w.samples) / 32768 * 100 * 5)) = _
  rw [if_neg hne]
  rfl

/-- A clip holding a `.recording` marker keeps exactly its previous
`.uploaded`-marker status across a pass (no `Nodup` assumption needed). -/
theorem runCycleFrom_recording_uploaded_unchanged (r : String → UploadOutcome) :
    ∀ (L : List String) (s : Store) (cs : ClientState) (n : Nat) (c : String),
      c ∈ s.recording →
      (c ∈ (runCycleFrom r L s cs n).store.uploaded ↔ c ∈ s.uploaded) := by
  intro L
  induction L with
  | nil => intro s cs n c _; simp [runCycleFrom]
  | cons c0 rest ih =>
    intro s cs n c hc
    by_cases hrec : c0 ∈ s.recording
    · rw [runCycleFrom]; simp only [if_pos hrec]
      exact ih s cs n c hc
    · by_cases hupl : c0 ∈ s.uploaded
      · rw [runCycleFrom]; simp only [if_neg hrec, if_pos hupl]
        exact ih s cs n c hc
      · have hne : c ≠ c0 := fun h => hrec (h ▸ hc)
        by_cases hok : (upload_audio cs (r c0)).1
        · rw [runCycleFrom]
          simp only [if_neg hrec, if_neg hupl, hok, if_pos]
          rw [ih (touchUploaded s c0) _ _ c (by simpa using hc),
            mem_touchUploaded_uploaded]
          simp [hne]
        · rw [runCycleFrom]
          simp only [if_neg hrec, if_neg hupl, hok, Bool.false_eq_true, if_false]
          exact ih s _ n c hc

/-- Marker status after a sequence of `markUploaded` (touch) calls. -/
theorem isUploaded_foldl_touch :
    ∀ (ms : List String) (s : Store) (c : String),
      (isUploaded (ms.foldl touchUploaded s) c = true ↔
        isUploaded s c = true ∨ c ∈ ms) := by
  intro ms
  induction ms with
  | nil => intro s c; simp
  | cons m rest ih =>
    intro s c
    rw [List.foldl_cons, ih (touchUploaded s m) c]
    unfold isUploaded
    simp only [decide_eq_true_eq]
    rw [mem_touchUploaded_uploaded]
    constructor
    · rintro ((h | rfl) | h)
      · exact Or.inl h
      · exact Or.inr (List.mem_cons_self _ _)
      · exact Or.inr (List.mem_cons_of_mem _ h)
    · rintro (h | h)
      · exact Or.inl (Or.inl h)
      · rcases List.mem_cons.mp h with rfl | h
        · exact Or.inl (Or.inr rfl)
        · exact Or.inr h

/-- A pending clip whose upload attempts always fail stays pending (file
present, no marker) over any number of poll cycles. -/
theorem iterateCycle_pending_preserved (r : String → UploadOutcome) (c : String)
    (hfail : uploadSucceeds (r c) = false) :
    ∀ (m : Nat) (s : Store) (cs : ClientState), s.wavs.Nodup →
      c ∈ s.wavs → c ∉ s.recording → c ∉ s.uploaded →
      ((iterateCycle r m s cs).1.wavs.Nodup ∧
        c ∈ (iterateCycle r m s cs).1.wavs ∧
        c ∉ (iterateCycle r m s cs).1.recording ∧
        c ∉ (iterateCycle r m s cs).1.uploaded) := by
  intro m
  induction m with
  | zero => intro s cs hnd h1 h2 h3; exact ⟨hnd, h1, h2, h3⟩
  | succ k ih =>
    intro s cs hnd h1 h2 h3
    rw [iterateCycle]
    have hw : (uploadCycle r s cs 0).store.wavs = s.wavs :=
      runCycleFrom_store_wavs r s.wavs s cs 0
    have hr : (uploadCycle r s cs 0).store.recording = s.recording :=
      runCycleFrom_store_recording r s.wavs s cs 0
    have hu : c ∉ (uploadCycle r s cs 0).store.uploaded := by
      intro hmem
      rw [uploadCycle, runCycleFrom_uploaded_mem r s.wavs s cs 0 c hnd] at hmem
      rcases hmem with h | ⟨_, _, _, h4⟩
      · exact h3 h
      · rw [hfail] at h4; exact Bool.noConfusion h4
    exact ih (uploadCycle r s cs 0).store (uploadCycle r s cs 0).client
      (hw ▸ hnd) (hw ▸ h1) (hr ▸ h2) hu

/-! Claim theorems. -/

/-- C1: a clip whose upload attempt fails (non-200 response or exception)
is left in PendingUpload state — its wav file survives the cycle and no
`.uploaded` marker is created — it is still attempted (the failure only
moves the loop on; every other pending clip of the same cycle is attempted
too), and it stays pending and is re-attempted on every one of arbitrarily
many subsequent poll cycles: there is no retry cap. -/
theorem c1_failed_upload_stays_pending
    (r : String → UploadOutcome) (s : Store) (cs : ClientState) (n : Nat)
    (c : String) (hnd : s.wavs.Nodup)
    (hc : c ∈ s.wavs) (hrec : c ∉ s.recording) (hup : c ∉ s.uploaded)
    (hfail : uploadSucceeds (r c) = false) :
    ((uploadCycle r s cs n).store.wavs = s.wavs ∧
      c ∉ (uploadCycle r s cs n).store.uploaded ∧
      c ∈ (uploadCycle r s cs n).attempted ∧
      (∀ d, d ∈ s.wavs → d ∉ s.recording → d ∉ s.uploaded →
        d ∈ (uploadCycle r s cs n).attempted)) ∧
    (∀ m : Nat,
      c ∈ (iterateCycle r m s cs).1.wavs ∧
      c ∉ (iterateCycle r m s cs).1.uploaded ∧
      c ∈ (uploadCycle r (iterateCycle r m s cs).1
            (iterateCycle r m s cs).2 0).attempted) := by
  have hatt : ∀ (s' : Store) (cs' : ClientState) (n' : Nat), s'.wavs.Nodup →
      (uploadCycle r s' cs' n').attempted =
        s'.wavs.filter (fun d => decide (d ∉ s'.recording) && decide (d ∉ s'.uploaded)) :=
    fun s' cs' n' h => runCycleFrom_attempted r s'.wavs s' cs' n' h
  refine ⟨⟨runCycleFrom_store_wavs r s.wavs s cs n, ?_, ?_, ?_⟩, ?_⟩
  · intro hmem
    rw [uploadCycle, runCycleFrom_uploaded_mem r s.wavs s cs n c hnd] at hmem
    rcases hmem with h | ⟨_, _, _, h4⟩
    · exact hup h
    · rw [hfail] at h4; exact Bool.noConfusion h4
  · rw [hatt s cs n hnd]
    exact List.mem_filter.mpr ⟨hc, by simp [hrec, hup]⟩
  · intro d hd1 hd2 hd3
    rw [hatt s cs n hnd]
    exact List.mem_filter.mpr ⟨hd1, by simp [hd2, hd3]⟩
  · intro m
    obtain ⟨hnd', h1, h2, h3⟩ :=
      iterateCycle_pending_preserved r c hfail m s cs hnd hc hrec hup
    refine ⟨h1, h3, ?_⟩
    rw [hatt _ _ _ hnd']
    exact List.mem_filter.mpr ⟨h1, by simp [h2, h3]⟩

/-- Witness for C1: a two-clip store against a server answering 503 —
after the cycle the file list is intact, no marker exists for the failed
clip, and it is still present after three more cycles. -/
theorem c1_witness :
    (uploadCycle (fun _ => UploadOutcome.resp 503 none)
        ⟨["clip_a", "clip_b"], [], []⟩ ⟨none⟩ 0).store.wavs = ["clip_a", "clip_b"] ∧
    "clip_a" ∉ (uploadCycle (fun _ => UploadOutcome.resp 503 none)
        ⟨["clip_a", "clip_b"], [], []⟩ ⟨none⟩ 0).store.uploaded ∧
    "clip_a" ∈ (iterateCycle (fun _ => UploadOutcome.resp 503 none) 3
        ⟨["clip_a", "clip_b"], [], []⟩ ⟨none⟩).1.wavs := by
  have h := c1_failed_upload_stays_pending (fun _ => UploadOutcome.resp 503 none)
      ⟨["clip_a", "clip_b"], [], []⟩ ⟨none⟩ 0 "clip_a"
      (by decide) (by decide) (by decide) (by decide) (by decide)
  exact ⟨h.1.1, h.1.2.1, (h.2 3).1⟩

/-- C2: no operation deletes a clip's audio file while the clip is not
Uploaded: an upload-loop pass never removes any wav file, and the
reclamation pass removes a wav only if its `.uploaded` marker was
present. -/
theorem c2_no_deletion_unless_uploaded :
    (∀ (r : String → UploadOutcome) (s : Store) (cs : ClientState) (n : Nat),
      (uploadCycle r s cs n).store.wavs = s.wavs) ∧
    (∀ (s : Store) (kd : Nat) (c : String), s.wavs.Nodup →
      c ∈ s.wavs → c ∉ (cleanup_uploaded s kd).wavs → c ∈ s.uploaded) := by
  constructor
  · intro r s cs n
    exact runCycleFrom_store_wavs r s.wavs s cs n
  · intro s kd c hnd hc hnot
    by_contra hni
    exact hnot ((cleanup_uploaded_wavs_mem s kd c hnd).mpr ⟨hc, hni⟩)

/-- Witness for C2: an upload cycle over an exception-throwing server keeps
the file list, and in a store where reclamation removed clip "a" the marker
was indeed present. -/
theorem c2_witness :
    (uploadCycle (fun _ => UploadOutcome.exn) ⟨["c"], [], []⟩ ⟨none⟩ 0).store.wavs = ["c"] ∧
    "a" ∈ Store.uploaded ⟨["a"], [], ["a"]⟩ := by
  have h := c2_no_deletion_unless_uploaded
  exact ⟨h.1 (fun _ => UploadOutcome.exn) ⟨["c"], [], []⟩ ⟨none⟩ 0,
    h.2 ⟨["a"], [], ["a"]⟩ 0 "a" (by decide) (by decide) (by decide)⟩

/-- C3: `get_pending_count` counts exactly the wav files carrying neither a
`.recording` nor an `.uploaded` marker; with 5 clips of which one records
and one is uploaded it returns 3; and a clip with a `.recording` marker is
never attempted by an upload cycle nor has its marker state changed by
one. -/
theorem c3_pending_count_and_recording_excluded :
    (∀ s : Store, get_pending_count s =
      (s.wavs.filter (fun c =>
        decide (c ∉ s.recording) && decide (c ∉ s.uploaded))).length) ∧
    get_pending_count ⟨["audio_1", "audio_2", "audio_3", "audio_4", "audio_5"],
      ["audio_1"], ["audio_2"]⟩ = 3 ∧
    (∀ (r : String → UploadOutcome) (s : Store) (cs : ClientState) (n : Nat)
        (c : String), c ∈ s.recording →
      c ∉ (uploadCycle r s cs n).attempted ∧
      (c ∈ (uploadCycle r s cs n).store.uploaded ↔ c ∈ s.uploaded)) := by
  refine ⟨get_pending_count_eq_filter_length, by decide, ?_⟩
  intro r s cs n c hc
  exact ⟨runCycleFrom_recording_skipped r s.wavs s cs n c hc,
    runCycleFrom_recording_uploaded_unchanged r s.wavs s cs n c hc⟩

/-- Witness for C3: the recording clip of the 5-clip scenario is not
attempted when every upload would succeed. -/
theorem c3_witness :
    get_pending_count ⟨["audio_1", "audio_2", "audio_3", "audio_4", "audio_5"],
      ["audio_1"], ["audio_2"]⟩ = 3 ∧
    "audio_1" ∉ (uploadCycle (fun _ => UploadOutcome.resp 200 none)
      ⟨["audio_1", "audio_2", "audio_3", "audio_4", "audio_5"],
        ["audio_1"], ["audio_2"]⟩ ⟨none⟩ 0).attempted := by
  have h := c3_pending_count_and_recording_excluded
  exact ⟨h.2.1,
    (h.2.2 (fun _ => UploadOutcome.resp 200 none)
      ⟨["audio_1", "audio_2", "audio_3", "audio_4", "audio_5"],
        ["audio_1"], ["audio_2"]⟩ ⟨none⟩ 0 "audio_1" (by decide)).1⟩

/-- C4: the `.uploaded` marker of a clip is present exactly when some prior
`markUploaded` (touch of the marker) for that clip occurred, and touching
the marker twice leaves the very same store as touching it once. -/
theorem c4_marker_iff_marked :
    (∀ (s : Store) (c : String),
      touchUploaded (touchUploaded s c) c = touchUploaded s c) ∧
    (∀ (s : Store) (c : String) (ms : List String), isUploaded s c = false →
      (isUploaded (ms.foldl touchUploaded s) c = true ↔ c ∈ ms)) := by
  constructor
  · intro s c
    by_cases h : c ∈ s.uploaded
    · simp [touchUploaded, h]
    · simp [touchUploaded, h]
  · intro s c ms h0
    rw [isUploaded_foldl_touch ms s c, h0]
    simp

/-- Witness for C4: marking twice equals marking once, and after marking
clips "x" then "y" from a markerless store, "x" reads uploaded while "z"
does not. -/
theorem c4_witness :
    touchUploaded (touchUploaded ⟨["x"], [], []⟩ "x") "x"
      = touchUploaded ⟨["x"], [], []⟩ "x" ∧
    (isUploaded ((["x", "y"] : List String).foldl touchUploaded ⟨["x"], [], []⟩) "x"
      = true ↔ "x" ∈ (["x", "y"] : List String)) := by
  have h := c4_marker_iff_marked
  exact ⟨h.1 ⟨["x"], [], []⟩ "x",
    h.2 ⟨["x"], [], []⟩ "x" ["x", "y"] (by decide)⟩

/-- C5 counterexample: with `keep_days = 7` and an Uploaded clip whose
mtime equals the current time — so the "older than 7 days" retention policy
is not satisfied — the reclamation pass nevertheless deletes both the
clip's audio file and its marker, refuting "exactly the clips satisfying
the policy are deleted". -/
theorem c5_counterexample :
    retention_spec 7 1000 1000 = false ∧
    (cleanup_uploadedT ⟨[("clip", 1000)], [], ["clip"]⟩ 7).wavs = [] ∧
    (cleanup_uploadedT ⟨[("clip", 1000)], [], ["clip"]⟩ 7).uploaded = [] := by
  refine ⟨by decide, by decide, by decide⟩

/-- C5 (amended): `cleanup_uploaded` implements only the "all" retention
policy — the `keep_days` argument does not influence the result — and after
it runs every clip that carried an `.uploaded` marker has neither its wav
file nor its marker present, `.recording` markers are untouched, and
exactly the marker-carrying wavs are deleted.  The agent's only call site
passes `keep_days = 0` ("all"), for which this coincides with the claimed
behavior. -/
theorem c5_reclaim_deletes_all_uploaded (s : Store) (kd : Nat)
    (hw : s.wavs.Nodup) (hu : s.uploaded.Nodup) :
    cleanup_uploaded s kd = cleanup_uploaded s 0 ∧
    (cleanup_uploaded s kd).uploaded = [] ∧
    (cleanup_uploaded s kd).recording = s.recording ∧
    (∀ c, c ∈ (cleanup_uploaded s kd).wavs ↔ c ∈ s.wavs ∧ c ∉ s.uploaded) :=
  ⟨rfl, cleanup_uploaded_uploaded_nil s kd hu, cleanup_uploaded_recording s kd,
    fun c => cleanup_uploaded_wavs_mem s kd c hw⟩

/-- Witness for the amended C5 at a concrete two-clip store. -/
theorem c5_witness :
    (cleanup_uploaded ⟨["a", "b"], [], ["b"]⟩ 7).uploaded = [] ∧
    ("a" ∈ (cleanup_uploaded ⟨["a", "b"], [], ["b"]⟩ 7).wavs ↔
      "a" ∈ (⟨["a", "b"], [], ["b"]⟩ : Store).wavs ∧
        "a" ∉ (⟨["a", "b"], [], ["b"]⟩ : Store).uploaded) := by
  have h := c5_reclaim_deletes_all_uploaded ⟨["a", "b"], [], ["b"]⟩ 7
    (by decide) (by decide)
  exact ⟨h.2.1, h.2.2.2 "a"⟩

/-- C6: while no session is active (falsy id) the upload sends the session
form field as the empty string; a 200 response's session id is adopted
exactly when no session was active — a truthy session id is never replaced,
by any outcome — and once `"abc123"` has been adopted from a response, the
next upload sends session field `"abc123"`. -/
theorem c6_session_field_and_adoption :
    (∀ cs : ClientState, pyTruthy cs.session_id = false → sentSessionId cs = "") ∧
    (∀ (cs : ClientState) (o : UploadOutcome), pyTruthy cs.session_id = true →
      (upload_audio cs o).2 = cs) ∧
    (∀ (cs : ClientState) (sid : Option String), pyTruthy cs.session_id = false →
      (upload_audio cs (.resp 200 sid)).2.session_id = sid) ∧
    sentSessionId (upload_audio ⟨none⟩ (.resp 200 (some "abc123"))).2 = "abc123" := by
  refine ⟨?_, ?_, ?_, by decide⟩
  · rintro ⟨sid⟩ h
    cases sid with
    | none => rfl
    | some s =>
      simp only [pyTruthy, Bool.not_eq_false'] at h
      simp only [sentSessionId]
      rw [if_pos (by simpa using h)]
  · rintro ⟨sid⟩ o h
    cases o with
    | exn => rfl
    | resp status sid2 =>
      by_cases hst : status = 200
      · simp [upload_audio, hst, h]
      · simp [upload_audio, hst]
  · rintro ⟨sid⟩ sid2 h
    simp [upload_audio, h]

/-- Witness for C6 at the spec's concrete scenario. -/
theorem c6_witness :
    sentSessionId ⟨none⟩ = "" ∧
    (upload_audio ⟨some "abc123"⟩ UploadOutcome.exn).2 = ⟨some "abc123"⟩ ∧
    (upload_audio ⟨none⟩ (UploadOutcome.resp 200 (some "abc123"))).2.session_id
      = some "abc123" := by
  have h := c6_session_field_and_adoption
  exact ⟨h.1 ⟨none⟩ (by decide),
    h.2.1 ⟨some "abc123"⟩ UploadOutcome.exn (by decide),
    h.2.2.1 ⟨none⟩ (some "abc123") (by decide)⟩

/-- C7 counterexample: the upload loop does not sort what it enumerates.
`Path.glob` yields entries in arbitrary filesystem order; when that order
puts `audio_2` before `audio_1` the cycle processes `audio_2` first, so the
processed sequence is not lexicographically ordered. -/
theorem c7_counterexample :
    (uploadCycle (fun _ => UploadOutcome.resp 200 none)
      ⟨["audio_2", "audio_1"], [], []⟩ ⟨none⟩ 0).attempted
        = ["audio_2", "audio_1"] ∧
    ¬ nameLe "audio_2" "audio_1" := by
  exact ⟨by decide, by decide⟩

/-- C7 (amended): each upload cycle attempts exactly the pending clips in
the directory enumeration order in which `glob` yields them — an order the
code never sorts — rather than in lexicographic filename order. -/
theorem c7_cycle_order_is_enumeration_order (r : String → UploadOutcome)
    (s : Store) (cs : ClientState) (n : Nat) (hnd : s.wavs.Nodup) :
    (uploadCycle r s cs n).attempted =
      s.wavs.filter (fun c => decide (c ∉ s.recording) && decide (c ∉ s.uploaded)) :=
  runCycleFrom_attempted r s.wavs s cs n hnd

/-- Witness for the amended C7 at a concrete unsorted enumeration. -/
theorem c7_witness :
    (uploadCycle (fun _ => UploadOutcome.resp 200 none)
      ⟨["b", "a"], [], []⟩ ⟨none⟩ 0).attempted =
      (⟨["b", "a"], [], []⟩ : Store).wavs.filter
        (fun c => decide (c ∉ (⟨["b", "a"], [], []⟩ : Store).recording)
          && decide (c ∉ (⟨["b", "a"], [], []⟩ : Store).uploaded)) :=
  c7_cycle_order_is_enumeration_order (fun _ => UploadOutcome.resp 200 none)
    ⟨["b", "a"], [], []⟩ ⟨none⟩ 0 (by decide)

/-- C8 counterexample: in the trace of `stop` the session-end call (index
1) precedes the thread join (index 2), so it is not the case that the
session is ended only after the upload loop has been waited for. -/
theorem c8_counterexample : ¬ endSessionAfterJoin (stopTrace true) := by
  intro h
  have h2 := h 2 1 (by decide) (by decide)
  omega

/-- C8 (amended): `stop` signals the loop to exit (clears `is_running`),
then immediately performs the session-end call, and only afterwards joins
the upload thread, with a bounded 5-second timeout; so the session-end can
race with a still-running upload. -/
theorem c8_stop_order :
    stopTrace true = [.setRunningFalse, .endSession, .joinThread] ∧
    stopTrace false = [.setRunningFalse, .endSession] ∧
    joinTimeoutSeconds = 5 :=
  ⟨rfl, rfl, rfl⟩

/-- Reduced form of the sleep meter on a readable file. -/
theorem sleep_calculate_audio_level_some (w : WavData) :
    sleep_calculate_audio_level (some w) =
      if w.sampwidth = 2 then
        (if strideSample w.samples = [] then 0
          else min 100 (rmsOf (strideSample w.samples) / 32768 * 100 * 5))
      else 0 := rfl

/-- C9 counterexample: on empty input `AudioCapture.calculate_audio_level`
evaluates `sum_squares / count` with `count = 0`, raising
`ZeroDivisionError` which nothing in the function catches (modelled as
`none`): it fails rather than returning 0. -/
theorem c9_counterexample :
    calculate_audio_level [] = none ∧ calculate_audio_level [] ≠ some 0 := by
  refine ⟨by simp [calculate_audio_level], by simp [calculate_audio_level]⟩

/-- C9 (amended): every value the sample-sequence meter returns lies in
[0, 100]; silence yields 0; a nonempty full-scale input (every sample of
magnitude at least 32767, e.g. a full-scale square wave) saturates at
exactly 100; for equal-length inputs the value is monotone non-decreasing
in the RMS of the input.  On empty input, however, this meter raises
`ZeroDivisionError` (modelled `none`) instead of returning 0; it is the
file-based sleep meter that returns 0 on empty or unreadable input, and it
too stays within [0, 100] and saturates at 100 on full-scale input. -/
theorem c9_level_meter_properties :
    (∀ (l : List Int) (v : ℝ), calculate_audio_level l = some v →
      0 ≤ v ∧ v ≤ 100) ∧
    (∀ n : Nat, 0 < n → calculate_audio_level (List.replicate n 0) = some 0) ∧
    (∀ l : List Int, l ≠ [] → (∀ s ∈ l, (32767 : ℤ) ≤ |s|) →
      calculate_audio_level l = some 100) ∧
    (∀ (l₁ l₂ : List Int) (v₁ v₂ : ℝ), l₁.length = l₂.length →
      rmsOf l₁ ≤ rmsOf l₂ →
      calculate_audio_level l₁ = some v₁ → calculate_audio_level l₂ = some v₂ →
      v₁ ≤ v₂) ∧
    calculate_audio_level [] = none ∧
    sleep_calculate_audio_level none = 0 ∧
    (∀ w : WavData, w.samples = [] → sleep_calculate_audio_level (some w) = 0) ∧
    (∀ w : WavData, 0 ≤ sleep_calculate_audio_level (some w) ∧
      sleep_calculate_audio_level (some w) ≤ 100) ∧
    (∀ w : WavData, w.sampwidth = 2 → w.samples ≠ [] →
      (∀ s ∈ w.samples, (32767 : ℤ) ≤ |s|) →
      sleep_calculate_audio_level (some w) = 100) := by
  refine ⟨?_, ?_, ?_, ?_, by simp [calculate_audio_level], rfl, ?_, ?_, ?_⟩
  · intro l v h
    rcases eq_or_ne l [] with rfl | hne
    · simp [calculate_audio_level] at h
    · rw [calculate_audio_level_eq l hne] at h
      obtain rfl : round2 (levelOf l) = v := Option.some.injEq _ _ ▸ h.symm ▸ rfl
      exact ⟨round2_nonneg (levelOf_nonneg l), round2_le_hundred (levelOf_le_hundred l)⟩
  · intro n hn
    have hne : List.replicate n 0 ≠ ([] : List Int) := by
      intro h
      rw [← List.length_eq_zero] at h
      simp at h
      omega
    rw [calculate_audio_level_eq _ hne]
    have : levelOf (List.replicate n 0) = 0 := by
      unfold levelOf
      rw [rmsOf_replicate_zero]
      norm_num
    rw [this, round2_zero]
  · intro l hne hfs
    rw [calculate_audio_level_eq l hne, levelOf_full_scale l hne hfs, round2_hundred]
  · intro l₁ l₂ v₁ v₂ _ hrms h1 h2
    have hne₁ : l₁ ≠ [] := by
      rintro rfl; simp [calculate_audio_level] at h1
    have hne₂ : l₂ ≠ [] := by
      rintro rfl; simp [calculate_audio_level] at h2
    rw [calculate_audio_level_eq _ hne₁] at h1
    rw [calculate_audio_level_eq _ hne₂] at h2
    obtain rfl : round2 (levelOf l₁) = v₁ := Option.some.injEq _ _ ▸ h1.symm ▸ rfl
    obtain rfl : round2 (levelOf l₂) = v₂ := Option.some.injEq _ _ ▸ h2.symm ▸ rfl
    exact round2_mono (levelOf_mono hrms)
  · intro w h
    rw [sleep_calculate_audio_level_some]
    by_cases h2 : w.sampwidth = 2
    · rw [if_pos h2]
      have hnil : strideSample w.samples = [] := by
        unfold strideSample
        rw [h]
        simp
      rw [if_pos hnil]
    · rw [if_neg h2]
  · intro w
    by_cases h2 : w.sampwidth = 2
    · by_cases hs : strideSample w.samples = []
      · have hz : sleep_calculate_audio_level (some w) = 0 := by
          rw [sleep_calculate_audio_level_some, if_pos h2, if_pos hs]
        rw [hz]
        norm_num
      · rw [sleep_level_eq w h2 hs]
        exact ⟨levelOf_nonneg _, levelOf_le_hundred _⟩
    · have hz : sleep_calculate_audio_level (some w) = 0 := by
        rw [sleep_calculate_audio_level_some, if_neg h2]
      rw [hz]
      norm_num
  · intro w h2 hne hfs
    have hs : strideSample w.samples ≠ [] := strideSample_ne_nil hne
    rw [sleep_level_eq w h2 hs]
    exact levelOf_full_scale _ hs
      (fun s hsm => hfs s (strideSample_subset w.samples s hsm))

/-- Witness for the amended C9: silence gives 0, a full-scale square wave
gives 100, and the two are ordered as the monotonicity conjunct demands. -/
theorem c9_witness :
    calculate_audio_level (List.replicate 2 0) = some 0 ∧
    calculate_audio_level [32767, -32767] = some 100 ∧
    (∃ v₁ v₂ : ℝ, calculate_audio_level (List.replicate 2 0) = some v₁ ∧
      calculate_audio_level [32767, -32767] = some v₂ ∧ v₁ ≤ v₂) := by
  have h := c9_level_meter_properties
  have h0 : calculate_audio_level (List.replicate 2 0) = some 0 :=
    h.2.1 2 (by norm_num)
  have h100 : calculate_audio_level [32767, -32767] = some 100 := by
    refine h.2.2.1 [32767, -32767] (by simp) ?_
    intro s hs
    rcases List.mem_cons.mp hs with rfl | hs
    · decide
    · rcases List.mem_cons.mp hs with rfl | hs
      · decide
      · simp at hs
  have hrms : rmsOf (List.replicate 2 0) ≤ rmsOf [32767, -32767] := by
    rw [rmsOf_replicate_zero]
    exact rmsOf_nonneg _
  exact ⟨h0, h100, ⟨0, 100, h0, h100,
    h.2.2.2.1 (List.replicate 2 0) [32767, -32767] 0 100 (by simp) hrms h0 h100⟩⟩

/-- C10: one `retry_buffered` call attempts at most 10 buffered files,
taken as an initial segment of the lexicographically sorted buffer (hence
in sorted, chronological order); a file is deleted only if it was attempted
and its send got a 200 response; and no attempted file before the last one
raised — the first exception ends the pass, so nothing after it is
attempted. -/
theorem c10_retry_buffered_shape (buffer : List String) (r : String → SendOutcome) :
    (retry_buffered buffer r).1.length ≤ 10 ∧
    (∃ k, (retry_buffered buffer r).1 =
      ((buffer.insertionSort nameLe).take 10).take k) ∧
    List.Pairwise nameLe (retry_buffered buffer r).1 ∧
    (∀ f ∈ (retry_buffered buffer r).2,
      f ∈ (retry_buffered buffer r).1 ∧ r f = .status 200) ∧
    (∀ i g, i + 1 < (retry_buffered buffer r).1.length →
      (retry_buffered buffer r).1.get? i = some g → r g ≠ .exn) := by
  obtain ⟨⟨k, hk⟩, hdel, hexn⟩ :=
    retryGo_spec r ((buffer.insertionSort nameLe).take 10)
  have heq : (retry_buffered buffer r) =
      retryGo r ((buffer.insertionSort nameLe).take 10) := rfl
  rw [heq]
  refine ⟨?_, ⟨k, hk⟩, ?_, hdel, hexn⟩
  · rw [hk]
    calc ((((buffer.insertionSort nameLe).take 10)).take k).length
        ≤ ((buffer.insertionSort nameLe).take 10).length := by
          rw [List.length_take, List.length_take]
          omega
      _ ≤ 10 := List.length_take_le _ _
  · rw [hk]
    have hsorted : List.Pairwise nameLe (buffer.insertionSort nameLe) :=
      List.sorted_insertionSort nameLe buffer
    exact hsorted.sublist
      ((List.take_sublist _ _).trans (List.take_sublist _ _))

/-- Witness for C10: a three-file buffer whose send of "b" raises; the
deleted file "a" was attempted and got a 200 response. -/
theorem c10_witness :
    (retry_buffered ["b", "a", "c"]
      (fun f => if f = "b" then SendOutcome.exn else SendOutcome.status 200)).1.length ≤ 10 ∧
    "a" ∈ (retry_buffered ["b", "a", "c"]
      (fun f => if f = "b" then SendOutcome.exn else SendOutcome.status 200)).1 ∧
    (fun f => if f = "b" then SendOutcome.exn else SendOutcome.status 200) "a"
      = SendOutcome.status 200 := by
  have h := c10_retry_buffered_shape ["b", "a", "c"]
    (fun f => if f = "b" then SendOutcome.exn else SendOutcome.status 200)
  have hd := h.2.2.2.1 "a" (by decide)
  exact ⟨h.1, hd.1, hd.2⟩

end SleepSys
